import Mathlib

/-!
Shallow embedding of the portfolio analytics module
(`examples/portfoliomanager/mcp_portfolio_server/server.py`).

Numbers are modelled by `ℚ`; Python's `round(x, n)` (round-half-to-even on
the exact value) is modelled by `roundTo`.  Python's `str.upper()` is
modelled by an ASCII upper-casing over the character list (tickers in this
module are ASCII).  Python's stable descending `sorted(..., reverse=True)`
is modelled by `List.insertionSort` with the non-strict "greater or
equal" relation on weights, which places an earlier element before any
equal-weight later one and so computes the same (unique) stable
descending ordering.
-/

namespace PortfolioServer

/-- Round a rational to the nearest integer, halves to the even integer
(the rounding Python's builtin `round` applies to the exact value). -/
def rnd (q : ℚ) : ℤ :=
  let f : ℤ := ⌊q⌋
  let r : ℚ := q - f
  if r < 1/2 then f
  else if r > 1/2 then f + 1
  else if f % 2 = 0 then f else f + 1

/-- Python's `round(q, n)`: round at `n` decimal digits, halves to even. -/
def roundTo (n : ℕ) (q : ℚ) : ℚ :=
  (rnd (q * 10 ^ n) : ℚ) / 10 ^ n

/-- ASCII upper-casing of one character (`str.upper` restricted to ASCII). -/
def upperChar (c : Char) : Char :=
  if 97 ≤ c.toNat ∧ c.toNat ≤ 122 then Char.ofNat (c.toNat - 32) else c

/-- ASCII upper-casing of a string, modelling Python's `str.upper()` on the
ASCII ticker strings this module manipulates. -/
def upperStr (s : String) : String :=
  ⟨s.data.map upperChar⟩

/-- A raw holding record, as loaded from the store
(`ticker`, `name`, `quantity`, `purchase_price`, `current_price`). -/
structure Holding where
  ticker : String
  name : String
  quantity : ℚ
  purchase_price : ℚ
  current_price : ℚ
deriving DecidableEq, Repr

/-- An enriched holding: the raw fields plus the four derived fields
computed in `get_all_holdings` / `get_holding_by_ticker`. -/
structure EnrichedHolding where
  ticker : String
  name : String
  quantity : ℚ
  purchase_price : ℚ
  current_price : ℚ
  total_value : ℚ
  total_cost : ℚ
  profit_loss : ℚ
  profit_loss_pct : ℚ
deriving DecidableEq, Repr

/-- The per-holding enrichment of `server.py` lines 48-63: derived values
rounded to 2 decimals, and `profit_loss_pct = 0` when `total_cost ≤ 0`
(the source guards with `if total_cost > 0`). -/
def enrich (h : Holding) : EnrichedHolding :=
  let total_cost := h.quantity * h.purchase_price
  let total_value := h.quantity * h.current_price
  let profit_loss := total_value - total_cost
  let profit_loss_pct := if total_cost > 0 then profit_loss / total_cost * 100 else 0
  { ticker := h.ticker
    name := h.name
    quantity := h.quantity
    purchase_price := h.purchase_price
    current_price := h.current_price
    total_value := roundTo 2 total_value
    total_cost := roundTo 2 total_cost
    profit_loss := roundTo 2 profit_loss
    profit_loss_pct := roundTo 2 profit_loss_pct }

/-- The `summary` sub-record of `get_all_holdings` (no percentage field). -/
structure HoldingsSummary where
  total_holdings : ℕ
  total_portfolio_value : ℚ
  total_portfolio_cost : ℚ
  overall_profit_loss : ℚ
deriving DecidableEq, Repr

/-- The full return value of `get_all_holdings`. -/
structure AllHoldings where
  holdings : List EnrichedHolding
  summary : HoldingsSummary
deriving DecidableEq, Repr

/-- `get_all_holdings` (lines 27-76): enrich every holding, then sum the
already-rounded per-holding fields and round the sums to 2 decimals. -/
def get_all_holdings (holdings : List Holding) : AllHoldings :=
  let enriched := holdings.map enrich
  { holdings := enriched
    summary :=
      { total_holdings := enriched.length
        total_portfolio_value := roundTo 2 ((enriched.map (·.total_value)).sum)
        total_portfolio_cost := roundTo 2 ((enriched.map (·.total_cost)).sum)
        overall_profit_loss := roundTo 2 ((enriched.map (·.profit_loss)).sum) } }

/-- Result of `get_holding_by_ticker`: either the enriched holding or the
structured `{error: ...}` payload. -/
inductive LookupResult where
  | found (h : EnrichedHolding)
  | failure (msg : String)
deriving DecidableEq, Repr

/-- ASCII apostrophe, used in the not-found error message. -/
def sq : String := String.singleton (Char.ofNat 39)

/-- `get_holding_by_ticker` (lines 80-111): scan the holdings in order,
return the enrichment of the first one whose upper-cased ticker equals the
upper-cased query, else the structured error payload. -/
def get_holding_by_ticker (holdings : List Holding) (ticker : String) : LookupResult :=
  match holdings with
  | [] => .failure ("Holding with ticker " ++ sq ++ ticker ++ sq ++ " not found")
  | h :: rest =>
      if upperStr h.ticker = upperStr ticker then .found (enrich h)
      else get_holding_by_ticker rest ticker

/-- The return value of `get_portfolio_summary` (it alone carries
`overall_profit_loss_pct`). -/
structure PortfolioSummary where
  total_holdings : ℕ
  total_portfolio_value : ℚ
  total_portfolio_cost : ℚ
  overall_profit_loss : ℚ
  overall_profit_loss_pct : ℚ
deriving DecidableEq, Repr

/-- `get_portfolio_summary` (lines 115-140): totals are computed from the
raw (unrounded) per-holding quantities and prices, then rounded once. -/
def get_portfolio_summary (holdings : List Holding) : PortfolioSummary :=
  let total_value := (holdings.map (fun h => h.quantity * h.current_price)).sum
  let total_cost := (holdings.map (fun h => h.quantity * h.purchase_price)).sum
  let overall_profit_loss := total_value - total_cost
  let overall_profit_loss_pct :=
    if total_cost > 0 then overall_profit_loss / total_cost * 100 else 0
  { total_holdings := holdings.length
    total_portfolio_value := roundTo 2 total_value
    total_portfolio_cost := roundTo 2 total_cost
    overall_profit_loss := roundTo 2 overall_profit_loss
    overall_profit_loss_pct := roundTo 2 overall_profit_loss_pct }

/-- The static module-level ticker-to-sector table `_SECTOR_BY_TICKER`
(lines 144-153), looked up with default "Unknown". -/
def sectorByTicker (t : String) : String :=
  if t = "AAPL" then "Technology"
  else if t = "MSFT" then "Technology"
  else if t = "GOOGL" then "Communication Services"
  else if t = "AMZN" then "Consumer Discretionary"
  else if t = "TSLA" then "Consumer Discretionary"
  else if t = "META" then "Communication Services"
  else if t = "NVDA" then "Technology"
  else if t = "NFLX" then "Communication Services"
  else "Unknown"

/-- `_current_value` (lines 156-157): `quantity * current_price` from the
raw fields. -/
def currentValue (h : Holding) : ℚ :=
  h.quantity * h.current_price

/-- One entry of the `position_weights` list. -/
structure PositionWeight where
  ticker : String
  name : String
  weight_pct : ℚ
deriving DecidableEq, Repr

/-- Insertion-ordered accumulation of `sector_totals[sector] =
sector_totals.get(sector, 0.0) + v` (a Python dict keeps insertion order;
a new key is appended, an existing key is updated in place). -/
def addSector (acc : List (String × ℚ)) (k : String) (v : ℚ) : List (String × ℚ) :=
  match acc with
  | [] => [(k, v)]
  | (k0, v0) :: rest =>
      if k0 = k then (k0, v0 + v) :: rest else (k0, v0) :: addSector rest k v

/-- The Diversification Report returned by `assess_diversification`.
`sector_weights` is the insertion-ordered dict as an association list. -/
structure DiversificationReport where
  sector_weights : List (String × ℚ)
  position_weights : List PositionWeight
  hhi : ℚ
  top_position_weight : ℚ
  num_holdings : ℕ
  notes : String
deriving DecidableEq, Repr

/-- `assess_diversification` (lines 161-230).  Empty portfolios
short-circuit to the all-zero report.  Otherwise `total` is the sum of the
raw current values, with `or 1.0` substituting `1` when the sum is `0`;
position weights are the 2-decimal rounded percentages sorted descending
(stably) and later truncated to the first 10; `hhi` is the 4-decimal
rounded sum of squared fractional weights; notes are space-joined. -/
def assess_diversification (holdings : List Holding) : DiversificationReport :=
  match holdings with
  | [] =>
      { sector_weights := []
        position_weights := []
        hhi := 0
        top_position_weight := 0
        num_holdings := 0
        notes := "No holdings found." }
  | h0 :: hs =>
      let holdings := h0 :: hs
      let values : List ℚ := holdings.map currentValue
      let total : ℚ := if values.sum = 0 then 1 else values.sum
      let position_weights : List PositionWeight :=
        List.insertionSort (fun a b => b.weight_pct ≤ a.weight_pct)
          (holdings.map (fun h =>
            { ticker := h.ticker
              name := h.name
              weight_pct := roundTo 2 (currentValue h / total * 100) }))
      let sector_totals : List (String × ℚ) :=
        holdings.foldl
          (fun acc h => addSector acc (sectorByTicker (upperStr h.ticker)) (currentValue h)) []
      let sector_weights : List (String × ℚ) :=
        sector_totals.map (fun p => (p.1, roundTo 2 (p.2 / total * 100)))
      let weights : List ℚ := values.map (fun v => v / total)
      let hhi : ℚ := roundTo 4 ((weights.map (fun w => w * w)).sum)
      let top_w : ℚ := roundTo 2 ((weights.tail.foldl max (currentValue h0 / total)) * 100)
      let notes : List String :=
        (if top_w ≥ 25 then ["High single-position concentration (top holding >= 25%)."] else []) ++
        (if hhi ≥ 15/100 then ["Elevated overall concentration by HHI."] else []) ++
        (if sector_weights.length ≤ 2 then ["Limited sector diversification."] else [])
      let notes :=
        if notes = [] then ["Diversification appears reasonable for a simple demo portfolio."]
        else notes
      { sector_weights := sector_weights
        position_weights := position_weights.take 10
        hhi := hhi
        top_position_weight := top_w
        num_holdings := holdings.length
        notes := " ".intercalate notes }

/-- The Risk Assessment returned by `assess_risk`. -/
structure RiskAssessment where
  risk_score : ℚ
  risk_level : String
  factors : List String
  top_position_weight_pct : ℚ
  hhi : ℚ
  num_holdings : ℕ
  num_sectors : ℕ
deriving DecidableEq, Repr

/-- The heuristic scoring core of `assess_risk` (lines 251-318) as a
function of its inputs: top position weight, HHI, number of sectors,
whether the ticker set meets the volatile-name set, and holding count. -/
def riskFromInputs (top_w hhi : ℚ) (numSectors : ℕ) (hasVolatile : Bool)
    (numHoldings : ℕ) : RiskAssessment :=
  let topPts : ℚ := if top_w ≥ 40 then 4 else if top_w ≥ 25 then 2 else if top_w ≥ 15 then 1 else 0
  let topFactors : List String :=
    if top_w ≥ 40 then ["Very high single-position concentration (>=40%)."]
    else if top_w ≥ 25 then ["High single-position concentration (>=25%)."]
    else if top_w ≥ 15 then ["Moderate single-position concentration (>=15%)."]
    else []
  let hhiPts : ℚ := if hhi ≥ 25/100 then 3 else if hhi ≥ 15/100 then 2 else if hhi ≥ 10/100 then 1 else 0
  let hhiFactors : List String :=
    if hhi ≥ 25/100 then ["High overall concentration by HHI (>=0.25)."]
    else if hhi ≥ 15/100 then ["Elevated concentration by HHI (>=0.15)."]
    else if hhi ≥ 10/100 then ["Some concentration by HHI (>=0.10)."]
    else []
  let secPts : ℚ := if numSectors ≤ 2 then 2 else if numSectors ≤ 3 then 1 else 0
  let secFactors : List String :=
    if numSectors ≤ 2 then ["Limited sector diversification (<=2 sectors)."]
    else if numSectors ≤ 3 then ["Concentrated across few sectors (<=3 sectors)."]
    else []
  let volPts : ℚ := if hasVolatile then 1 else 0
  let volFactors : List String :=
    if hasVolatile then ["Includes higher-volatility names (e.g., TSLA/NVDA)."] else []
  let fewPts : ℚ := if numHoldings ≤ 4 ∧ numHoldings > 0 then 1 else 0
  let fewFactors : List String :=
    if numHoldings ≤ 4 ∧ numHoldings > 0 then
      ["Few holdings (<=4) increases idiosyncratic risk."]
    else []
  let score : ℚ := 1 + topPts + hhiPts + secPts + volPts + fewPts
  let score : ℚ := max 1 (min 10 score)
  let label : String := if score ≥ 8 then "High" else if score ≥ 5 then "Moderate" else "Low"
  { risk_score := roundTo 1 score
    risk_level := label
    factors := topFactors ++ hhiFactors ++ secFactors ++ volFactors ++ fewFactors
    top_position_weight_pct := top_w
    hhi := hhi
    num_holdings := numHoldings
    num_sectors := numSectors }

/-- `assess_risk` (lines 234-318): feed the diversification outputs and
the volatile-ticker membership test into the scoring core. -/
def assess_risk (holdings : List Holding) : RiskAssessment :=
  let div := assess_diversification holdings
  riskFromInputs div.top_position_weight div.hhi div.sector_weights.length
    (holdings.any (fun h => upperStr h.ticker = "TSLA" ∨ upperStr h.ticker = "NVDA"))
    div.num_holdings

/-- `load_portfolio` (lines 17-23): the external store is modelled as
`Option (List Holding)` (`none` = the file does not exist); a missing
store yields the empty holdings list. -/
def load_portfolio (store : Option (List Holding)) : List Holding :=
  match store with
  | none => []
  | some holdings => holdings

/-! ### Concrete fixtures used by the claims -/

/-- The spec's end-to-end example holding. -/
def apple : Holding := ⟨"AAPL", "Apple", 10, 150, 180⟩

/-- Notes produced by `assess_diversification` on the one-AAPL portfolio. -/
def appleNotes : String :=
  "High single-position concentration (top holding >= 25%). Elevated overall concentration by HHI. Limited sector diversification."

/-- A holding with zero quantity (hence zero cost). -/
def zeroHolding : Holding := ⟨"Z", "Zero", 0, 5, 7⟩

/-- Two holdings whose raw value 1.006 rounds up to 1.01. -/
def centA : Holding := ⟨"A", "Alpha", 1, 1, 503/500⟩

/-- Second holding with raw value 1.006. -/
def centB : Holding := ⟨"B", "Beta", 1, 1, 503/500⟩

/-- Eleven equal-valued holdings: more than the 10 kept in
`position_weights`. -/
def eleven : List Holding := List.replicate 11 ⟨"A", "Alpha", 1, 1, 1⟩

/-! ### Rounding lemmas -/

/-- Evaluation rule for `rnd` away from half-integers. -/
theorem rnd_eq_of (q : ℚ) (n : ℤ) (h1 : (n : ℚ) - 1/2 < q) (h2 : q < (n : ℚ) + 1/2) :
    rnd q = n := by
  unfold rnd
  rcases le_or_lt (n : ℚ) q with hle | hlt
  · have hf : ⌊q⌋ = n := by
      rw [Int.floor_eq_iff]
      constructor
      · exact hle
      · linarith
    rw [hf]
    have : q - (n : ℚ) < 1/2 := by linarith
    simp only [this, if_pos]
  · have hf : ⌊q⌋ = n - 1 := by
      rw [Int.floor_eq_iff]
      push_cast
      constructor
      · linarith
      · linarith
    rw [hf]
    have hr : ¬ (q - ((n - 1 : ℤ) : ℚ) < 1/2) := by
      push_cast
      linarith
    have hr2 : q - ((n - 1 : ℤ) : ℚ) > 1/2 := by
      push_cast
      linarith
    simp only [hr, if_neg, hr2, if_pos, not_false_iff]
    ring

/-- `rnd` moves its argument by at most one half. -/
theorem abs_rnd_sub (q : ℚ) : |(rnd q : ℚ) - q| ≤ 1/2 := by
  unfold rnd
  have h0 : (⌊q⌋ : ℚ) ≤ q := Int.floor_le q
  have h1 : q < (⌊q⌋ : ℚ) + 1 := Int.lt_floor_add_one q
  by_cases hlt : q - (⌊q⌋ : ℚ) < 1/2
  · simp only [hlt, if_pos]
    rw [abs_le]
    constructor <;> linarith
  · by_cases hgt : q - (⌊q⌋ : ℚ) > 1/2
    · simp only [hlt, if_neg, hgt, if_pos, not_false_iff]
      rw [abs_le]
      push_cast
      constructor <;> linarith
    · have he : q - (⌊q⌋ : ℚ) = 1/2 := le_antisymm (not_lt.mp hgt) (not_lt.mp hlt)
      simp only [hlt, hgt, if_neg, not_false_iff]
      by_cases hev : ⌊q⌋ % 2 = 0 <;> simp only [hev, if_pos, if_neg, not_false_iff] <;>
        rw [abs_le] <;> push_cast <;> constructor <;> linarith

/-- Evaluation rule for `roundTo` away from half-ulps. -/
theorem roundTo_eq_of (k : ℕ) (q : ℚ) (n : ℤ)
    (h1 : (n : ℚ) - 1/2 < q * 10 ^ k) (h2 : q * 10 ^ k < (n : ℚ) + 1/2) :
    roundTo k q = (n : ℚ) / 10 ^ k := by
  unfold roundTo
  rw [rnd_eq_of (q * 10 ^ k) n h1 h2]

/-- `roundTo k` moves its argument by at most half an ulp. -/
theorem abs_roundTo_sub (k : ℕ) (q : ℚ) :
    |roundTo k q - q| ≤ 1 / (2 * 10 ^ k) := by
  unfold roundTo
  have hpow : (0:ℚ) < 10 ^ k := by positivity
  have h := abs_rnd_sub (q * 10 ^ k)
  have heq : (rnd (q * 10 ^ k) : ℚ) / 10 ^ k - q =
      ((rnd (q * 10 ^ k) : ℚ) - q * 10 ^ k) / 10 ^ k := by
    field_simp
    ring
  rw [heq, abs_div, abs_of_pos hpow, div_le_div_iff₀ hpow (by positivity)]
  calc |(rnd (q * 10 ^ k) : ℚ) - q * 10 ^ k| * (2 * 10 ^ k)
      ≤ (1/2) * (2 * 10 ^ k) := by
        apply mul_le_mul_of_nonneg_right h
        positivity
    _ = 1 * 10 ^ k := by ring

/-- Combined evaluation rule for `roundTo` on concrete inputs. -/
theorem roundTo_eval (k : ℕ) (q r : ℚ) (n : ℤ)
    (h1 : (n : ℚ) - 1/2 < q * 10 ^ k) (h2 : q * 10 ^ k < (n : ℚ) + 1/2)
    (h3 : (n : ℚ) / 10 ^ k = r) : roundTo k q = r := by
  rw [roundTo_eq_of k q n h1 h2, h3]

/-- Rounding fixes zero. -/
@[simp] theorem roundTo_zero (k : ℕ) : roundTo k (0 : ℚ) = 0 :=
  roundTo_eval k 0 0 0 (by norm_num) (by norm_num) (by norm_num)

/-- Rounding fixes any value that is already exact at scale `10 ^ k`. -/
theorem roundTo_of_scaled_int (k : ℕ) (a : ℚ) (n : ℤ) (h : a * 10 ^ k = n) :
    roundTo k a = a := by
  have := roundTo_eval k a ((n : ℚ) / 10 ^ k) n (by rw [h]; norm_num) (by rw [h]; norm_num) rfl
  rw [this, ← h]
  field_simp

/-! ### List helper lemmas -/

/-- Sums of pointwise differences. -/
theorem sum_map_sub {α : Type} (l : List α) (f g : α → ℚ) :
    (l.map fun x => f x - g x).sum = (l.map f).sum - (l.map g).sum := by
  induction l with
  | nil => simp
  | cons a t ih => simp [ih]; ring

/-- Triangle inequality for list sums over `ℚ`. -/
theorem abs_list_sum_le (l : List ℚ) : |l.sum| ≤ (l.map fun x => |x|).sum := by
  induction l with
  | nil => simp
  | cons a t ih =>
      simp only [List.sum_cons, List.map_cons]
      calc |a + t.sum| ≤ |a| + |t.sum| := abs_add _ _
        _ ≤ |a| + (t.map fun x => |x|).sum := by linarith

/-- Dividing a summed list by a constant, then scaling. -/
theorem sum_map_div_mul {α : Type} (l : List α) (g : α → ℚ) (T : ℚ) :
    (l.map fun x => g x / T * 100).sum = (l.map g).sum / T * 100 := by
  induction l with
  | nil => simp
  | cons a t ih => simp [ih]; ring

/-! ### Claim theorems -/

/-- C6: the empty portfolio short-circuits `assess_diversification` to the
all-zero report with note "No holdings found."; the substitute-1.0 divisor
is reserved for the non-empty all-zero-value case, where it yields 0%
weights rather than failing. -/
theorem c6_empty_diversification :
    assess_diversification [] = ⟨[], [], 0, 0, 0, "No holdings found."⟩ ∧
    (assess_diversification [⟨"A", "Alpha", 0, 0, 0⟩]).position_weights =
      [⟨"A", "Alpha", 0⟩] := by
  constructor
  · rfl
  · norm_num [assess_diversification, currentValue, List.insertionSort, List.orderedInsert]

/-- C9: a missing store loads as the empty portfolio, and every downstream
operation is well-defined on it, returning its explicit empty-portfolio
record. -/
theorem c9_missing_store :
    load_portfolio none = [] ∧
    get_all_holdings (load_portfolio none) = ⟨[], ⟨0, 0, 0, 0⟩⟩ ∧
    get_portfolio_summary (load_portfolio none) = ⟨0, 0, 0, 0, 0⟩ ∧
    assess_diversification (load_portfolio none) = ⟨[], [], 0, 0, 0, "No holdings found."⟩ ∧
    assess_risk (load_portfolio none) =
      ⟨3, "Low", ["Limited sector diversification (<=2 sectors)."], 0, 0, 0, 0⟩ := by
  have r3 : roundTo 1 (3:ℚ) = 3 := roundTo_eval 1 3 3 30 (by norm_num) (by norm_num) (by norm_num)
  refine ⟨rfl, ?_, ?_, rfl, ?_⟩
  · simp [get_all_holdings, load_portfolio]
  · norm_num [get_portfolio_summary, load_portfolio]
  · norm_num [assess_risk, assess_diversification, riskFromInputs, load_portfolio,
      max_def, min_def, r3]

/-- C10: on the empty portfolio `assess_risk` scores 1 + 2 = 3 ("Low"):
the sector rule (`num_sectors <= 2`) fires even with zero sectors, while
the few-holdings rule is guarded by `num_holdings > 0` and does not, so
the factors list is exactly the limited-sector message. -/
theorem c10_empty_risk :
    (assess_risk []).risk_score = 3 ∧ (assess_risk []).risk_level = "Low" ∧
    (assess_risk []).factors = ["Limited sector diversification (<=2 sectors)."] := by
  have r3 : roundTo 1 (3:ℚ) = 3 := roundTo_eval 1 3 3 30 (by norm_num) (by norm_num) (by norm_num)
  norm_num [assess_risk, assess_diversification, riskFromInputs, max_def, min_def, r3]

/-- C1 counterexample: on the one-AAPL portfolio the risk score is not 8
as claimed: the HHI rule also fires (`hhi = 1.0 ≥ 0.25`, +3), so the raw
score is 1+4+3+2+1 = 11, clamped to 10. -/
theorem c1_counterexample : (assess_risk [apple]).risk_score ≠ 8 := by
  have hd : assess_diversification [apple] =
      ⟨[("Technology", 100)], [⟨"AAPL", "Apple", 100⟩], 1, 100, 1, appleNotes⟩ := by
    have hu : sectorByTicker (upperStr "AAPL") = "Technology" := by decide
    have e1 : roundTo 2 (100:ℚ) = 100 :=
      roundTo_eval 2 100 100 10000 (by norm_num) (by norm_num) (by norm_num)
    have e2 : roundTo 4 (1:ℚ) = 1 :=
      roundTo_eval 4 1 1 10000 (by norm_num) (by norm_num) (by norm_num)
    have hn : " ".intercalate
        (if (["High single-position concentration (top holding >= 25%).",
            "Elevated overall concentration by HHI.", "Limited sector diversification."] : List String) = []
          then ["Diversification appears reasonable for a simple demo portfolio."]
          else ["High single-position concentration (top holding >= 25%).",
            "Elevated overall concentration by HHI.", "Limited sector diversification."]) = appleNotes := by
      decide
    norm_num [assess_diversification, currentValue, apple, addSector, hu,
      List.insertionSort, List.orderedInsert, e1, e2, hn]
  have ht : upperStr apple.ticker = "AAPL" := by decide
  have hs1 : ¬ ("AAPL" = "TSLA") := by decide
  have hs2 : ¬ ("AAPL" = "NVDA") := by decide
  have r1 : roundTo 1 (10:ℚ) = 10 :=
    roundTo_eval 1 10 10 100 (by norm_num) (by norm_num) (by norm_num)
  norm_num [assess_risk, hd, riskFromInputs, ht, hs1, hs2, max_def, min_def, r1]

/-- C1 amended: on the one-AAPL portfolio, enrichment yields
total_cost 1500, total_value 1800, profit_loss 300, profit_loss_pct 20;
diversification yields sector_weights {"Technology": 100}, hhi 1.0,
top_position_weight 100; and `assess_risk` fires four factors (very-high
concentration, high HHI, limited sectors, few holdings), raw score
1+4+3+2+1 = 11 clamped to risk_score 10.0, risk_level "High". -/
theorem c1_end_to_end :
    enrich apple = ⟨"AAPL", "Apple", 10, 150, 180, 1800, 1500, 300, 20⟩ ∧
    assess_diversification [apple] =
      ⟨[("Technology", 100)], [⟨"AAPL", "Apple", 100⟩], 1, 100, 1, appleNotes⟩ ∧
    assess_risk [apple] = ⟨10, "High",
      ["Very high single-position concentration (>=40%).",
        "High overall concentration by HHI (>=0.25).",
        "Limited sector diversification (<=2 sectors).",
        "Few holdings (<=4) increases idiosyncratic risk."], 100, 1, 1, 1⟩ := by
  have hd : assess_diversification [apple] =
      ⟨[("Technology", 100)], [⟨"AAPL", "Apple", 100⟩], 1, 100, 1, appleNotes⟩ := by
    have hu : sectorByTicker (upperStr "AAPL") = "Technology" := by decide
    have e1 : roundTo 2 (100:ℚ) = 100 :=
      roundTo_eval 2 100 100 10000 (by norm_num) (by norm_num) (by norm_num)
    have e2 : roundTo 4 (1:ℚ) = 1 :=
      roundTo_eval 4 1 1 10000 (by norm_num) (by norm_num) (by norm_num)
    have hn : " ".intercalate
        (if (["High single-position concentration (top holding >= 25%).",
            "Elevated overall concentration by HHI.", "Limited sector diversification."] : List String) = []
          then ["Diversification appears reasonable for a simple demo portfolio."]
          else ["High single-position concentration (top holding >= 25%).",
            "Elevated overall concentration by HHI.", "Limited sector diversification."]) = appleNotes := by
      decide
    norm_num [assess_diversification, currentValue, apple, addSector, hu,
      List.insertionSort, List.orderedInsert, e1, e2, hn]
  refine ⟨?_, hd, ?_⟩
  · have e1 : roundTo 2 (1800:ℚ) = 1800 :=
      roundTo_eval 2 1800 1800 180000 (by norm_num) (by norm_num) (by norm_num)
    have e2 : roundTo 2 (1500:ℚ) = 1500 :=
      roundTo_eval 2 1500 1500 150000 (by norm_num) (by norm_num) (by norm_num)
    have e3 : roundTo 2 (300:ℚ) = 300 :=
      roundTo_eval 2 300 300 30000 (by norm_num) (by norm_num) (by norm_num)
    have e4 : roundTo 2 (20:ℚ) = 20 :=
      roundTo_eval 2 20 20 2000 (by norm_num) (by norm_num) (by norm_num)
    norm_num [enrich, apple, e1, e2, e3, e4]
  · have ht : upperStr apple.ticker = "AAPL" := by decide
    have hs1 : ¬ ("AAPL" = "TSLA") := by decide
    have hs2 : ¬ ("AAPL" = "NVDA") := by decide
    have r1 : roundTo 1 (10:ℚ) = 10 :=
      roundTo_eval 1 10 10 100 (by norm_num) (by norm_num) (by norm_num)
    norm_num [assess_risk, hd, riskFromInputs, ht, hs1, hs2, max_def, min_def, r1]

/-- C2 counterexample: on two holdings of raw value 1.006 each,
`get_portfolio_summary` rounds the raw sum (2.012 → 2.01) while the
`get_all_holdings` summary sums the rounded per-holding values
(1.01 + 1.01 → 2.02), so the totals differ. -/
theorem c2_counterexample :
    (get_portfolio_summary [centA, centB]).total_portfolio_value ≠
      (get_all_holdings [centA, centB]).summary.total_portfolio_value := by
  have e1 : roundTo 2 ((503:ℚ)/500) = 101/100 :=
    roundTo_eval 2 (503/500) (101/100) 101 (by norm_num) (by norm_num) (by norm_num)
  have e2 : roundTo 2 ((503:ℚ)/250) = 201/100 :=
    roundTo_eval 2 (503/250) (201/100) 201 (by norm_num) (by norm_num) (by norm_num)
  have e3 : roundTo 2 ((101:ℚ)/50) = 101/50 :=
    roundTo_of_scaled_int 2 (101/50) 202 (by norm_num)
  norm_num [get_portfolio_summary, get_all_holdings, enrich, centA, centB, e1, e2, e3]

/-- C2 amended: `get_portfolio_summary`'s totals are the 2-decimal
roundings of the *raw* per-holding sums, not of the sums of the rounded
per-holding fields; the two notions coincide whenever every holding's raw
value and cost are already exact to the cent (and can differ by a cent
otherwise, see the counterexample). -/
theorem c2_summary_totals (hs : List Holding) :
    ((get_portfolio_summary hs).total_portfolio_value =
        roundTo 2 ((hs.map fun h => h.quantity * h.current_price).sum) ∧
      (get_portfolio_summary hs).total_portfolio_cost =
        roundTo 2 ((hs.map fun h => h.quantity * h.purchase_price).sum) ∧
      (get_portfolio_summary hs).overall_profit_loss =
        roundTo 2 ((hs.map fun h => h.quantity * h.current_price).sum -
          (hs.map fun h => h.quantity * h.purchase_price).sum)) ∧
    ((∀ h ∈ hs, (∃ n : ℤ, h.quantity * h.current_price * 100 = n) ∧
        (∃ m : ℤ, h.quantity * h.purchase_price * 100 = m)) →
      (get_portfolio_summary hs).total_portfolio_value =
          (get_all_holdings hs).summary.total_portfolio_value ∧
        (get_portfolio_summary hs).total_portfolio_cost =
          (get_all_holdings hs).summary.total_portfolio_cost ∧
        (get_portfolio_summary hs).overall_profit_loss =
          (get_all_holdings hs).summary.overall_profit_loss) := by
  constructor
  · exact ⟨rfl, rfl, rfl⟩
  · intro hcent
    have hv : ((hs.map enrich).map (fun e => e.total_value)) =
        hs.map fun h => h.quantity * h.current_price := by
      rw [List.map_map]
      apply List.map_congr_left
      intro h hm
      obtain ⟨⟨n, hn⟩, _⟩ := hcent h hm
      simp only [Function.comp_apply, enrich]
      exact roundTo_of_scaled_int 2 _ n hn
    have hc : ((hs.map enrich).map (fun e => e.total_cost)) =
        hs.map fun h => h.quantity * h.purchase_price := by
      rw [List.map_map]
      apply List.map_congr_left
      intro h hm
      obtain ⟨_, ⟨m, hm2⟩⟩ := hcent h hm
      simp only [Function.comp_apply, enrich]
      exact roundTo_of_scaled_int 2 _ m hm2
    have hp : ((hs.map enrich).map (fun e => e.profit_loss)) =
        hs.map fun h => h.quantity * h.current_price - h.quantity * h.purchase_price := by
      rw [List.map_map]
      apply List.map_congr_left
      intro h hm
      obtain ⟨⟨n, hn⟩, ⟨m, hm2⟩⟩ := hcent h hm
      simp only [Function.comp_apply, enrich]
      apply roundTo_of_scaled_int 2 _ (n - m)
      push_cast
      rw [← hn, ← hm2]
      ring
    constructor
    · show roundTo 2 _ = roundTo 2 _
      rw [hv]
    constructor
    · show roundTo 2 _ = roundTo 2 _
      rw [hc]
    · show roundTo 2 _ = roundTo 2 _
      rw [hp, sum_map_sub]

/-- C2 witness: on the one-AAPL portfolio (values exact to the cent) the
summary totals agree between the two operations. -/
theorem c2_witness :
    (get_portfolio_summary [apple]).total_portfolio_value =
        (get_all_holdings [apple]).summary.total_portfolio_value ∧
      (get_portfolio_summary [apple]).total_portfolio_cost =
        (get_all_holdings [apple]).summary.total_portfolio_cost ∧
      (get_portfolio_summary [apple]).overall_profit_loss =
        (get_all_holdings [apple]).summary.overall_profit_loss :=
  (c2_summary_totals [apple]).2 (by
    intro h hm
    simp only [List.mem_singleton] at hm
    subst hm
    exact ⟨⟨180000, by norm_num [apple]⟩, ⟨150000, by norm_num [apple]⟩⟩)

/-- A zero-cost holding enriches to a zero profit/loss percentage. -/
theorem enrich_pct_zero (h : Holding) (hc : h.quantity * h.purchase_price = 0) :
    (enrich h).profit_loss_pct = 0 := by
  simp [enrich, hc]

/-- Under an all-zero-cost portfolio, a successful ticker lookup yields a
zero profit/loss percentage. -/
theorem lookup_pct_zero (hs : List Holding) (t : String)
    (hall : ∀ x ∈ hs, x.quantity * x.purchase_price = 0) :
    ∀ e, get_holding_by_ticker hs t = .found e → e.profit_loss_pct = 0 := by
  induction hs with
  | nil =>
      intro e he
      simp [get_holding_by_ticker] at he
  | cons h rest ih =>
      intro e he
      rw [get_holding_by_ticker] at he
      by_cases hc : upperStr h.ticker = upperStr t
      · rw [if_pos hc] at he
        cases he
        exact enrich_pct_zero h (hall h (List.mem_cons_self h rest))
      · rw [if_neg hc] at he
        exact ih (fun x hx => hall x (List.mem_cons_of_mem _ hx)) e he

/-- C5: a holding with zero quantity or zero purchase price (hence zero
total cost) gets `profit_loss_pct = 0` from enrichment, and the rule is
applied uniformly: `get_all_holdings` enriches every holding this way,
`get_holding_by_ticker` returns such enrichments, and the summary's
`overall_profit_loss_pct` is 0 when the summed cost is zero. -/
theorem c5_zero_cost (h : Holding) (hs : List Holding) (t : String)
    (hz : h.quantity = 0 ∨ h.purchase_price = 0)
    (hall : ∀ x ∈ hs, x.quantity = 0 ∨ x.purchase_price = 0) :
    (enrich h).profit_loss_pct = 0 ∧
    (get_all_holdings hs).holdings = hs.map enrich ∧
    (∀ e, get_holding_by_ticker hs t = .found e → e.profit_loss_pct = 0) ∧
    (get_portfolio_summary hs).overall_profit_loss_pct = 0 := by
  have hmul : ∀ x : Holding, x.quantity = 0 ∨ x.purchase_price = 0 →
      x.quantity * x.purchase_price = 0 := by
    intro x hx
    rcases hx with h0 | h0 <;> rw [h0] <;> ring
  refine ⟨enrich_pct_zero h (hmul h hz), rfl,
    lookup_pct_zero hs t (fun x hx => hmul x (hall x hx)), ?_⟩
  have hsum : (hs.map fun x => x.quantity * x.purchase_price).sum = 0 := by
    apply List.sum_eq_zero
    intro y hy
    obtain ⟨x, hx, rfl⟩ := List.mem_map.mp hy
    exact hmul x (hall x hx)
  simp [get_portfolio_summary, hsum]

/-- C5 witness: the zero-quantity holding, alone in the portfolio. -/
theorem c5_witness :
    (enrich zeroHolding).profit_loss_pct = 0 ∧
    (get_all_holdings [zeroHolding]).holdings = [zeroHolding].map enrich ∧
    (∀ e, get_holding_by_ticker [zeroHolding] "Z" = .found e → e.profit_loss_pct = 0) ∧
    (get_portfolio_summary [zeroHolding]).overall_profit_loss_pct = 0 :=
  c5_zero_cost zeroHolding [zeroHolding] "Z" (Or.inl rfl) (by
    intro x hx
    simp only [List.mem_singleton] at hx
    subst hx
    exact Or.inl rfl)

/-- C4 counterexample: crossing the 40% boundary (39.9 → 40.0) with the
other inputs at their maximal contributions does not change the clamped
score at all — both sides score 10.0 — so the general boundary claim
fails. -/
theorem c4_counterexample :
    (riskFromInputs 40 (25/100) 2 true 4).risk_score =
      (riskFromInputs (399/10) (25/100) 2 true 4).risk_score := by
  have r10 : roundTo 1 (10:ℚ) = 10 :=
    roundTo_eval 1 10 10 100 (by norm_num) (by norm_num) (by norm_num)
  norm_num [riskFromInputs, max_def, min_def, r10]

/-- C4 amended: at the two boundaries the clamp cannot reach, the step
delta of the scoring table is always realised: with every other risk
input held fixed, moving `top_position_weight` from 14.9 to 15.0, or
from 24.9 to 25.0, strictly increases the risk score by exactly 1 (the
table's step delta at each of those boundaries); only at the 40%
boundary can the clamp to 10 absorb the +2 step, see the
counterexample. -/
theorem c4_step_below_clamp (hhi : ℚ) (ns : ℕ) (vol : Bool) (nh : ℕ) :
    (riskFromInputs 15 hhi ns vol nh).risk_score =
      (riskFromInputs (149/10) hhi ns vol nh).risk_score + 1 ∧
    (riskFromInputs 25 hhi ns vol nh).risk_score =
      (riskFromInputs (249/10) hhi ns vol nh).risk_score + 1 := by
  have r1 : roundTo 1 (1:ℚ) = 1 :=
    roundTo_eval 1 1 1 10 (by norm_num) (by norm_num) (by norm_num)
  have r2 : roundTo 1 (2:ℚ) = 2 :=
    roundTo_eval 1 2 2 20 (by norm_num) (by norm_num) (by norm_num)
  have r3 : roundTo 1 (3:ℚ) = 3 :=
    roundTo_eval 1 3 3 30 (by norm_num) (by norm_num) (by norm_num)
  have r4 : roundTo 1 (4:ℚ) = 4 :=
    roundTo_eval 1 4 4 40 (by norm_num) (by norm_num) (by norm_num)
  have r5 : roundTo 1 (5:ℚ) = 5 :=
    roundTo_eval 1 5 5 50 (by norm_num) (by norm_num) (by norm_num)
  have r6 : roundTo 1 (6:ℚ) = 6 :=
    roundTo_eval 1 6 6 60 (by norm_num) (by norm_num) (by norm_num)
  have r7 : roundTo 1 (7:ℚ) = 7 :=
    roundTo_eval 1 7 7 70 (by norm_num) (by norm_num) (by norm_num)
  have r8 : roundTo 1 (8:ℚ) = 8 :=
    roundTo_eval 1 8 8 80 (by norm_num) (by norm_num) (by norm_num)
  have r9 : roundTo 1 (9:ℚ) = 9 :=
    roundTo_eval 1 9 9 90 (by norm_num) (by norm_num) (by norm_num)
  have r10 : roundTo 1 (10:ℚ) = 10 :=
    roundTo_eval 1 10 10 100 (by norm_num) (by norm_num) (by norm_num)
  constructor
  · norm_num [riskFromInputs]
    split_ifs <;> norm_num [max_def, min_def, r1, r2, r3, r4, r5, r6, r7, r8, r9, r10]
  · norm_num [riskFromInputs]
    split_ifs <;> norm_num [max_def, min_def, r1, r2, r3, r4, r5, r6, r7, r8, r9, r10]

/-- C8: ticker lookup is case-insensitive — when some holding's
upper-cased ticker equals the upper-cased query the lookup returns that
holding enriched; otherwise it returns the structured error payload
"Holding with ticker '<t>' not found" rather than a fault. -/
theorem c8_lookup (hs : List Holding) (t : String) :
    ((∃ h ∈ hs, upperStr h.ticker = upperStr t) →
      ∃ h, h ∈ hs ∧ upperStr h.ticker = upperStr t ∧
        get_holding_by_ticker hs t = .found (enrich h)) ∧
    ((∀ h ∈ hs, upperStr h.ticker ≠ upperStr t) →
      get_holding_by_ticker hs t =
        .failure ("Holding with ticker " ++ sq ++ t ++ sq ++ " not found")) := by
  induction hs with
  | nil =>
      constructor
      · rintro ⟨h, hm, -⟩
        exact absurd hm (List.not_mem_nil h)
      · intro
        rfl
  | cons h rest ih =>
      constructor
      · rintro ⟨h1, hm, he⟩
        by_cases hc : upperStr h.ticker = upperStr t
        · exact ⟨h, List.mem_cons_self h rest, hc, by rw [get_holding_by_ticker, if_pos hc]⟩
        · have hm2 : h1 ∈ rest := by
            rcases List.mem_cons.mp hm with rfl | hm2
            · exact absurd he hc
            · exact hm2
          obtain ⟨h2, hmem, hup, heq⟩ := ih.1 ⟨h1, hm2, he⟩
          exact ⟨h2, List.mem_cons_of_mem _ hmem, hup, by
            rw [get_holding_by_ticker, if_neg hc, heq]⟩
      · intro hall
        have hc : upperStr h.ticker ≠ upperStr t := hall h (List.mem_cons_self h rest)
        rw [get_holding_by_ticker, if_neg hc]
        exact ih.2 (fun x hx => hall x (List.mem_cons_of_mem _ hx))

/-- C8 witness: the query "aapl" finds the stored "AAPL" holding; the
query "msft" yields the structured error payload. -/
theorem c8_witness :
    get_holding_by_ticker [apple] "aapl" = .found (enrich apple) ∧
    get_holding_by_ticker [apple] "msft" =
      .failure ("Holding with ticker " ++ sq ++ "msft" ++ sq ++ " not found") := by
  constructor
  · obtain ⟨h, hm, -, he⟩ := (c8_lookup [apple] "aapl").1 ⟨apple, by simp, by decide⟩
    simp only [List.mem_singleton] at hm
    subst hm
    exact he
  · exact (c8_lookup [apple] "msft").2 (by
      intro h hm
      simp only [List.mem_singleton] at hm
      subst hm
      decide)

/-- C7: if every holding of a non-empty portfolio has the same positive
current value then `hhi = round(1/n, 4)` for `n` the number of holdings
(the sum of squared value fractions collapses to `n * (1/n)^2`). -/
theorem c7_hhi_equal_values (hs : List Holding) (v : ℚ) (hne : hs ≠ [])
    (hv : 0 < v) (hall : ∀ h ∈ hs, currentValue h = v) :
    (assess_diversification hs).hhi = roundTo 4 (1 / (hs.length : ℚ)) := by
  obtain ⟨h0, t, rfl⟩ := List.exists_cons_of_ne_nil hne
  have hn0 : (0:ℚ) < ((h0 :: t).length : ℚ) := by
    simp only [List.length_cons]
    positivity
  have hvs : ((h0 :: t).map currentValue).sum = ((h0 :: t).length : ℚ) * v := by
    have := List.sum_eq_card_nsmul ((h0 :: t).map currentValue) v (by
      intro x hx
      obtain ⟨h, hm, rfl⟩ := List.mem_map.mp hx
      exact hall h hm)
    rw [this, List.length_map, nsmul_eq_mul]
  have htot : ¬ (((h0 :: t).length : ℚ) * v = 0) := by positivity
  simp only [assess_diversification, hvs, htot, if_false]
  congr 1
  rw [List.map_map, List.map_map]
  have hsq := List.sum_eq_card_nsmul
    ((h0 :: t).map (((fun w => w * w) ∘ fun x => x / (((h0 :: t).length : ℚ) * v)) ∘ currentValue))
    ((1 / ((h0 :: t).length : ℚ)) * (1 / ((h0 :: t).length : ℚ))) (by
      intro x hx
      obtain ⟨h, hm, rfl⟩ := List.mem_map.mp hx
      simp only [Function.comp_apply, hall h hm]
      field_simp
      ring)
  rw [hsq, List.length_map, nsmul_eq_mul]
  field_simp

/-- C7 witness: the one-AAPL portfolio has `hhi = round(1/1, 4) = 1.0`. -/
theorem c7_witness :
    (assess_diversification [apple]).hhi = roundTo 4 (1 / (([apple] : List Holding).length : ℚ)) ∧
    (assess_diversification [apple]).hhi = 1 := by
  have h := c7_hhi_equal_values [apple] 1800 (by simp) (by norm_num) (by
    intro x hx
    simp only [List.mem_singleton] at hx
    subst hx
    norm_num [currentValue, apple])
  refine ⟨h, ?_⟩
  rw [h]
  simp only [List.length_singleton, Nat.cast_one]
  exact roundTo_eval 4 (1/1) 1 10000 (by norm_num) (by norm_num) (by norm_num)

/-- C3 counterexample: with 11 equal-valued holdings the returned
`position_weights` list is truncated to 10 entries, whose weights sum to
90.9 — farther from 100 than the claimed ±0.1-per-holding tolerance. -/
theorem c3_counterexample :
    ¬ (|((assess_diversification eleven).position_weights.map
          (fun p => p.weight_pct)).sum - 100| ≤ (eleven.length : ℚ) * (1/10)) := by
  have e909 : roundTo 2 ((100:ℚ)/11) = 909/100 :=
    roundTo_eval 2 (100/11) (909/100) 909 (by norm_num) (by norm_num) (by norm_num)
  have hpw : (assess_diversification eleven).position_weights =
      List.replicate 10 ⟨"A", "Alpha", 909/100⟩ := by
    norm_num [eleven, assess_diversification, currentValue, List.replicate,
      List.insertionSort, List.orderedInsert, e909]
  rw [hpw]
  simp only [List.map_replicate, List.sum_replicate, List.length_replicate, nsmul_eq_mul]
  push_cast
  rw [show |(10:ℚ) * (909/100) - 100| = 91/10 by
    rw [abs_of_nonpos (by norm_num)]
    norm_num]
  norm_num [eleven]

/-- C3 amended: for a non-empty portfolio with positive total current
value and at most 10 holdings (so that the top-10 truncation keeps every
entry), the weights in the returned `position_weights` list sum to 100
within the claimed ±0.1-per-holding tolerance; with more than 10 holdings
the truncation can break the bound (see the counterexample). -/
theorem c3_weight_conservation (hs : List Holding) (hne : hs ≠ [])
    (hpos : 0 < (hs.map currentValue).sum) (hlen : hs.length ≤ 10) :
    |((assess_diversification hs).position_weights.map
        (fun p => p.weight_pct)).sum - 100| ≤ (hs.length : ℚ) * (1/10) := by
  obtain ⟨h0, t, rfl⟩ := List.exists_cons_of_ne_nil hne
  have hT0 : ¬ (((h0 :: t).map currentValue).sum = 0) := ne_of_gt hpos
  simp only [assess_diversification, hT0, if_false]
  set T : ℚ := ((h0 :: t).map currentValue).sum with hT
  set f : Holding → PositionWeight := fun h =>
    { ticker := h.ticker, name := h.name, weight_pct := roundTo 2 (currentValue h / T * 100) }
    with hf
  have hlen2 : (List.insertionSort (fun a b => b.weight_pct ≤ a.weight_pct)
      ((h0 :: t).map f)).length ≤ 10 := by
    rw [List.length_insertionSort, List.length_map]
    exact hlen
  rw [List.take_of_length_le hlen2]
  have hperm := (List.perm_insertionSort (fun a b => b.weight_pct ≤ a.weight_pct)
    ((h0 :: t).map f)).map (fun p => p.weight_pct)
  rw [hperm.sum_eq, List.map_map]
  have hfw : ((fun p => p.weight_pct) ∘ f) =
      fun h => roundTo 2 (currentValue h / T * 100) := by
    funext h
    simp [hf]
  rw [hfw]
  have hraw : ((h0 :: t).map fun h => currentValue h / T * 100).sum = 100 := by
    rw [sum_map_div_mul, ← hT]
    field_simp
  have hdiff : ((h0 :: t).map fun h =>
      roundTo 2 (currentValue h / T * 100) - currentValue h / T * 100).sum =
      ((h0 :: t).map fun h => roundTo 2 (currentValue h / T * 100)).sum - 100 := by
    rw [sum_map_sub, hraw]
  rw [← hdiff]
  calc |((h0 :: t).map fun h =>
        roundTo 2 (currentValue h / T * 100) - currentValue h / T * 100).sum|
      ≤ (((h0 :: t).map fun h =>
          roundTo 2 (currentValue h / T * 100) - currentValue h / T * 100).map
          fun x => |x|).sum := abs_list_sum_le _
    _ ≤ (((h0 :: t).map fun h =>
          roundTo 2 (currentValue h / T * 100) - currentValue h / T * 100).map
          fun x => |x|).length • ((1:ℚ)/200) := by
        apply List.sum_le_card_nsmul
        intro x hx
        obtain ⟨y, hy, rfl⟩ := List.mem_map.mp hx
        obtain ⟨h, hm, rfl⟩ := List.mem_map.mp hy
        have := abs_roundTo_sub 2 (currentValue h / T * 100)
        calc |roundTo 2 (currentValue h / T * 100) - currentValue h / T * 100|
            ≤ 1 / (2 * 10 ^ 2) := this
          _ = 1/200 := by norm_num
    _ ≤ ((h0 :: t).length : ℚ) * (1/10) := by
        rw [List.length_map, List.length_map, nsmul_eq_mul]
        have hc : (0:ℚ) ≤ ((h0 :: t).length : ℚ) := by positivity
        nlinarith

/-- C3 witness: the one-AAPL portfolio, weight sum exactly 100. -/
theorem c3_witness :
    |((assess_diversification [apple]).position_weights.map
        (fun p => p.weight_pct)).sum - 100| ≤ (([apple] : List Holding).length : ℚ) * (1/10) :=
  c3_weight_conservation [apple] (by simp) (by norm_num [currentValue, apple]) (by simp)

end PortfolioServer
